import Mathlib

/-!
Verification of the communicatord flag registry (flags.cpp) against its
design specification.

Strings are modelled as lists of byte values (`Str := List Nat`), matching
the byte-level processing done by the C++ code; the helper `str` converts a
Lean string literal to that representation for concrete inputs.  Fallible
operations return `Except flag_error _`; the exception classes declared in
the missing header communicatord/exception.h are modelled as the
constructors of `flag_error` (their message strings are not modelled).
-/

/-- Byte strings: each element is one byte value (97 for the letter a, 45 for the dash). -/
abbrev Str : Type := List Nat

/-- Convert a Lean string literal to its byte representation. -/
def str (s : String) : Str := s.data.map Char.toNat

/-- The exception taxonomy of the flag subsystem.  `invalid_name` and
`invalid_parameter` model the libexcept classes of the same names;
`bad_number` models the std::invalid_argument thrown by std::stol on a
non-numeric string. -/
inductive flag_error : Type where
  | invalid_name : flag_error
  | invalid_parameter : flag_error
  | bad_number : flag_error
deriving DecidableEq

/-- Result part of an `Except`, forgetting which error occurred. -/
def exOut {α : Type} : Except flag_error α → Option α
  | .ok a => some a
  | .error _ => none

namespace communicatord



/-!  ## Name validator (flag::valid_name, flags.cpp lines 997-1062)

The C++ loop walks the string once keeping two locals, `first` (true only
for the first character) and `last_char` (the previous, already lowercased,
character; initially the NUL byte 0).  Uppercase bytes are folded to
lowercase in place ( c |= 0x20 , i.e. +32 on 65..90).  After the loop the
last character is checked not to be a dash.  The recursion below returns,
on success, the lowercased remainder together with the final `last_char`.
-/

/-- One loop iteration per list element; arguments: remaining input,
`first`, `last_char`.  Byte classes as in the C++ switch: 45 = dash,
48..57 = digits, 65..90 = uppercase (folded to +32), 97..122 = lowercase,
anything else invalid. -/
def vn_loop : Str → Bool → Nat → Except flag_error (Str × Nat)
  | [], _, last => .ok ([], last)
  | c :: rest, first, last =>
    if c = 45 then
      if first then .error .invalid_name
      else if last = 45 then .error .invalid_name
      else
        match vn_loop rest false 45 with
        | .error e => .error e
        | .ok (r, l) => .ok (45 :: r, l)
    else if 48 ≤ c ∧ c ≤ 57 then
      if first then .error .invalid_name
      else
        match vn_loop rest false c with
        | .error e => .error e
        | .ok (r, l) => .ok (c :: r, l)
    else if 65 ≤ c ∧ c ≤ 90 then
      match vn_loop rest false (c + 32) with
      | .error e => .error e
      | .ok (r, l) => .ok ((c + 32) :: r, l)
    else if 97 ≤ c ∧ c ≤ 122 then
      match vn_loop rest false c with
      | .error e => .error e
      | .ok (r, l) => .ok (c :: r, l)
    else .error .invalid_name

/-- flag::valid_name: rejects the empty string, runs the loop, and finally
rejects a trailing dash.  On success the returned string is the input with
uppercase letters folded to lowercase. -/
def valid_name (name : Str) : Except flag_error Str :=
  if name = [] then .error .invalid_name
  else
    match vn_loop name true 0 with
    | .error e => .error e
    | .ok (r, last) => if last = 45 then .error .invalid_name else .ok r

/-!  ## The specification grammar  ^[a-z][a-z0-9]*(-[a-z0-9]+)*$

`nameRest s afterDash` is the automaton for the part after the first
character: in state `afterDash = true` we have just read a dash, so only a
lowercase letter or digit may follow and the string may not end; a dash is
allowed only in state `afterDash = false`.  `goodName` additionally
requires a nonempty string starting with a lowercase letter. -/

/-- Lowercase letter or digit ( [a-z0-9] ). -/
def lowerOrDigit (c : Nat) : Bool := (97 ≤ c ∧ c ≤ 122) ∨ (48 ≤ c ∧ c ≤ 57)

def nameRest : Str → Bool → Bool
  | [], afterDash => !afterDash
  | c :: r, afterDash =>
    if lowerOrDigit c then nameRest r false
    else if c = 45 then (!afterDash) && nameRest r true
    else false

/-- Decides membership in the regular language ^[a-z][a-z0-9]*(-[a-z0-9]+)*$ . -/
def goodName : Str → Bool
  | [] => false
  | c :: r => (decide (97 ≤ c ∧ c ≤ 122)) && nameRest r false

/-- The lowercase folding applied by the validator: bytes 65..90 get +32,
all other bytes are unchanged. -/
def lowerByte (c : Nat) : Nat := if 65 ≤ c ∧ c ≤ 90 then c + 32 else c

/-- The validator loop from an arbitrary non-first state followed by the
final trailing-dash check; `valid_name` is this composition after its
special first iteration. -/
def vn_finish (s : Str) (last : Nat) : Option Str :=
  match vn_loop s false last with
  | .error _ => none
  | .ok (r, l) => if l = 45 then none else some r

/-!  ## Durable records (advgetopt::conf_file, at the parameter-map level)

A record is the parameter map of one flag file; the filesystem maps each
filename to the record stored there, if any.  The key=value text layer of
conf_file is below the granularity of every claim and is not modelled. -/

/-- One durable record: get_parameter returns `some value`, has_parameter
is `isSome`. -/
def Record : Type := Str → Option Str

/-- The durable filesystem: which record, if any, each filename holds. -/
def Fs : Type := Str → Option Record

/-- conf_file::get_parameter. -/
def rget (r : Record) (k : Str) : Option Str := r k

/-- conf_file::set_parameter: bind k to v, replacing any previous value. -/
def rset (r : Record) (k v : Str) : Record :=
  fun k2 => if k2 = k then some v else r k2

/-- The parameter map of a file that does not exist: empty. -/
def emptyRecord : Record := fun _ => none

/-!  ## Decimal serialization (std::to_string and std::stol) -/

/-- Decimal digits of n, most significant first; fuel-based to remain
kernel-computable (any fuel ≥ n suffices, 0 gives the empty list). -/
def natDigits : Nat → Nat → Str
  | 0, _ => []
  | fuel + 1, n => if n = 0 then [] else natDigits fuel (n / 10) ++ [48 + n % 10]

/-- std::to_string of a nonnegative value. -/
def natToStr (n : Nat) : Str := if n = 0 then [48] else natDigits n n

/-- std::to_string of a long. -/
def intToStr (i : Int) : Str := if i < 0 then 45 :: natToStr i.natAbs else natToStr i.natAbs

def isDigit (c : Nat) : Bool := 48 ≤ c ∧ c ≤ 57

/-- Value of the leading run of decimal digits, accumulator style
( std::stol stops at the first non-digit and ignores the rest). -/
def digitsVal : Str → Nat → Nat
  | [], acc => acc
  | c :: r, acc => if 48 ≤ c ∧ c ≤ 57 then digitsVal r (acc * 10 + (c - 48)) else acc

def startsWithDigit : Str → Bool
  | [] => false
  | c :: _ => isDigit c

def isSpaceByte (c : Nat) : Bool := c = 32 ∨ (9 ≤ c ∧ c ≤ 13)

/-- std::stol: skip leading whitespace, an optional sign (45 is the minus
sign, 43 the plus sign), then at least one decimal digit (none models the
std::invalid_argument throw); parsing stops at the first non-digit. -/
def stol (s : Str) : Option Int :=
  match s.dropWhile isSpaceByte with
  | [] => none
  | c :: rest =>
    if c = 45 then
      if startsWithDigit rest then some (-(digitsVal rest 0 : Int)) else none
    else if c = 43 then
      if startsWithDigit rest then some ((digitsVal rest 0 : Int)) else none
    else if isDigit c then some ((digitsVal (c :: rest) 0 : Int)) else none

/-!  ## Tag sets (std::set of std::string) and the tags field codec -/

/-- Lexicographic byte order, as std::string operator< . -/
def strLtb : Str → Str → Bool
  | [], [] => false
  | [], _ :: _ => true
  | _ :: _, [] => false
  | a :: as, b :: bs => if a < b then true else if a = b then strLtb as bs else false

/-- std::set insertion: ordered, duplicate-free. -/
def insertTag (t : Str) : List Str → List Str
  | [] => [t]
  | x :: xs =>
    if strLtb t x then t :: x :: xs
    else if t = x then x :: xs
    else x :: insertTag t xs

/-- snapdev::join_strings(tags, ",") over the in-order set elements. -/
def joinTags : List Str → Str
  | [] => []
  | [t] => t
  | t :: rest => t ++ 44 :: joinTags rest

def isTrimByte (c : Nat) : Bool := c = 32 ∨ c = 10 ∨ c = 13 ∨ c = 9

/-- Strip the characters of " \n\r\t" from both ends. -/
def trimStr (s : Str) : Str :=
  ((s.dropWhile isTrimByte).reverse.dropWhile isTrimByte).reverse

/-- Split at every comma (44), keeping empty pieces. -/
def splitComma : Str → List Str
  | [] => [[]]
  | c :: r =>
    if c = 44 then [] :: splitComma r
    else
      match splitComma r with
      | t :: ts => (c :: t) :: ts
      | [] => [[c]]

/-- snapdev::tokenize_string(list, tags, ",", true, " \n\r\t"): split at
commas, trim each piece, drop the pieces that are then empty. -/
def tokenizeTags (s : Str) : List Str :=
  ((splitComma s).map trimStr).filter (fun t => !t.isEmpty)

/-!  ## The flag value object (class communicatord::flag)

The member declarations with their default values live in the missing
header communicatord/flags.h.  Defaults are modelled from the spec (§3,
§4.2: state UP, priority 5, count 0, no tags, provenance empty, line 0)
and the in-source accessor documentation (get_count: starts at 0;
set_line: zero by default).  f_date and f_modified use -1 as the unset
sentinel; no claim observes the exact sentinel value. -/

inductive state_t : Type where
  | STATE_UP : state_t
  | STATE_DOWN : state_t
deriving DecidableEq

structure flag : Type where
  f_unit : Str
  f_section : Str
  f_name : Str
  f_source_file : Str
  f_function : Str
  f_line : Int
  f_message : Str
  f_priority : Int
  f_manual_down : Bool
  f_state : state_t
  f_date : Int
  f_modified : Int
  f_tags : List Str
  f_hostname : Str
  f_version : Str
  f_count : Int
  f_filename : Str
deriving DecidableEq

/-- A flag object with every member at its declared default. -/
def flag.default_fields : flag :=
  { f_unit := [], f_section := [], f_name := [], f_source_file := [],
    f_function := [], f_line := 0, f_message := [], f_priority := 5,
    f_manual_down := false, f_state := .STATE_UP, f_date := -1,
    f_modified := -1, f_tags := [], f_hostname := [], f_version := [],
    f_count := 0, f_filename := [] }

/-- flag::flag(unit, section, name): member-initialize the three names,
then validate (and normalize) each with valid_name, in declaration
order. -/
def flag.make (unit sect nm : Str) : Except flag_error flag :=
  match valid_name unit with
  | .error e => .error e
  | .ok u =>
    match valid_name sect with
    | .error e => .error e
    | .ok s =>
      match valid_name nm with
      | .error e => .error e
      | .ok n => .ok { flag.default_fields with f_unit := u, f_section := s, f_name := n }

def flag.set_state (f : flag) (s : state_t) : flag := { f with f_state := s }

def flag.set_source_file (f : flag) (s : Str) : flag := { f with f_source_file := s }

def flag.set_function (f : flag) (s : Str) : flag := { f with f_function := s }

def flag.set_line (f : flag) (l : Int) : flag := { f with f_line := l }

def flag.set_message (f : flag) (m : Str) : flag := { f with f_message := m }

/-- flag::set_priority: clamp below 0 to 0 and above 100 to 100. -/
def flag.set_priority (f : flag) (p : Int) : flag :=
  if p < 0 then { f with f_priority := 0 }
  else if p > 100 then { f with f_priority := 100 }
  else { f with f_priority := p }

def flag.set_manual_down (f : flag) (m : Bool) : flag := { f with f_manual_down := m }

/-- flag::add_tag: f_tags.insert(tag) and nothing else - the source does
not call valid_name on the tag. -/
def flag.add_tag (f : flag) (tag : Str) : flag :=
  { f with f_tags := insertTag tag f.f_tags }

/-!  ## Directory resolution (get_path_to_flag_files, flags.cpp 157-212) -/

/-- The external collaborators consulted during resolution: the optional
"path" parameter of /etc/communicatord/flags.conf, and the stat() view of
the filesystem (true when the path exists and is a directory; the two
distinct error logs for a missing path and a non-directory path do not
affect the returned value and are not modelled). -/
structure SysEnv : Type where
  conf_path : Option Str
  dir_exists : Str → Bool

/-- get_path_to_flag_files_internal: the configured path, or the default
/var/lib/communicatord/flags when the parameter is absent.  (In the source
this helper is never called - see get_path_unresolved_diverges.) -/
def get_path_to_flag_files_internal (env : SysEnv) : Str :=
  match env.conf_path with
  | some p => p
  | none => str "/var/lib/communicatord/flags"

/-- get_path_to_flag_files with the process-wide cache g_path_to_flag_files
made explicit (argument g) and a fuel bound: when the cache is empty the
C++ body calls itself (flags.cpp line 165), the only recursion, so fuel 0
( none ) models a call that never returns.  On success the pair holds the
returned string and the cache after the call. -/
def get_path_to_flag_files : Nat → SysEnv → Str → Option (Str × Str)
  | 0, _, _ => none
  | fuel + 1, env, g =>
    if g = [] then
      match get_path_to_flag_files fuel env g with
      | none => none
      | some (path, g1) =>
        let g2 := if env.dir_exists path then path else g1
        some (g2, g2)
    else some (g, g)

/-- flag::get_filename for a process whose path cache is already resolved
to `cache`; the theorems below assume cache ≠ [] because with an
unresolved cache the underlying get_path_to_flag_files() call never
returns (get_path_unresolved_diverges).  Returns the filename and the
flag after the memoization of f_filename. -/
def flag.get_filename (cache : Str) (f : flag) : Str × flag :=
  if f.f_filename = [] then
    let fn :=
      if cache = [] then []
      else cache ++ 47 :: (f.f_unit ++ 95 :: (f.f_section ++ 95 :: (f.f_name ++ str ".flag")))
    (fn, { f with f_filename := fn })
  else (f.f_filename, f)

/-!  ## flag::save (flags.cpp 896-976) -/

/-- flag::save.  time(nullptr), snapdev::gethostname() and
COMMUNICATORD_VERSION_STRING are the save-time environment, passed as
parameters.  The first component is the returned bool; a pre-existing
record whose count field does not parse makes the embedded std::stol
throw, modelled as .error .bad_number.  The second and third components
are the flag object and the filesystem after the call (the save_configuration
backup-then-replace write is modelled as the plain record update; its
I/O-failure path is not modelled). -/
def flag.save (cache : Str) (now : Int) (hostname version : Str) (f : flag) (fs : Fs) :
    Except flag_error Bool × flag × Fs :=
  let p := flag.get_filename cache f
  let filename := p.1
  let f1 := p.2
  if filename = [] then (.ok false, f1, fs)
  else if f1.f_state = .STATE_UP then
    let file0 : Record := (fs filename).getD emptyRecord
    let file_exists := (fs filename).isSome
    let has_date := file_exists && (rget file0 (str "date")).isSome
    let has_count := file_exists && (rget file0 (str "count")).isSome
    let nowStr := intToStr now
    let r1 := rset file0 (str "unit") f1.f_unit
    let r2 := rset r1 (str "section") f1.f_section
    let r3 := rset r2 (str "name") f1.f_name
    let r4 := rset r3 (str "source_file") f1.f_source_file
    let r5 := rset r4 (str "function") f1.f_function
    let r6 := rset r5 (str "line") (intToStr f1.f_line)
    let r7 := rset r6 (str "message") f1.f_message
    let r8 := rset r7 (str "priority") (intToStr f1.f_priority)
    let r9 := rset r8 (str "manual_down") (if f1.f_manual_down then str "yes" else str "no")
    let r10 := if has_date then r9 else rset r9 (str "date") nowStr
    let r11 := rset r10 (str "modified") nowStr
    let r12 := rset r11 (str "tags") (joinTags f1.f_tags)
    let r13 := rset r12 (str "hostname") hostname
    let r14 := rset r13 (str "version") version
    if has_count then
      match stol ((rget r14 (str "count")).getD []) with
      | none => (.error .bad_number, f1, fs)
      | some n =>
        let r15 := rset r14 (str "count") (intToStr (n + 1))
        (.ok true, f1, fun m => if m = filename then some r15 else fs m)
    else
      let r15 := rset r14 (str "count") (str "1")
      (.ok true, f1, fun m => if m = filename then some r15 else fs m)
  else
    -- state DOWN: unlink(filename); in this filesystem model the only
    -- failure unlink can report is ENOENT, which the source remaps to
    -- success, so the returned bool is true in both cases
    (.ok true, f1, fun m => if m = filename then none else fs m)

/-!  ## flag::flag(std::string const & filename) (flags.cpp 282-371) -/

/-- Read one optional numeric field: absent keeps the default, present but
non-numeric makes std::stol throw. -/
def readNum (v : Option Str) (dflt : Int) : Except flag_error Int :=
  match v with
  | none => .ok dflt
  | some s =>
    match stol s with
    | none => .error .bad_number
    | some n => .ok n

/-- The file-loading constructor: reject an empty filename, require the
four mandatory fields unit, section, name, message, then populate every
optional field that is present (numeric fields through std::stol, tags
through tokenize + set insertion); no grammar validation happens on this
path and the stored priority is used as is. -/
def flag.load (filename : Str) (fs : Fs) : Except flag_error flag :=
  if filename = [] then .error .invalid_parameter
  else
    let file : Record := (fs filename).getD emptyRecord
    if (rget file (str "unit")).isNone ∨ (rget file (str "section")).isNone
        ∨ (rget file (str "name")).isNone ∨ (rget file (str "message")).isNone
    then .error .invalid_parameter
    else
      match readNum (rget file (str "line")) 0 with
      | .error e => .error e
      | .ok lineVal =>
        match readNum (rget file (str "priority")) 5 with
        | .error e => .error e
        | .ok prioVal =>
          match readNum (rget file (str "date")) (-1) with
          | .error e => .error e
          | .ok dateVal =>
            match readNum (rget file (str "modified")) (-1) with
            | .error e => .error e
            | .ok modifiedVal =>
              match readNum (rget file (str "count")) 0 with
              | .error e => .error e
              | .ok countVal =>
                let tagList :=
                  match rget file (str "tags") with
                  | none => ([] : List Str)
                  | some tv => tokenizeTags tv
                .ok { f_filename := filename,
                      f_unit := (rget file (str "unit")).getD [],
                      f_section := (rget file (str "section")).getD [],
                      f_name := (rget file (str "name")).getD [],
                      f_source_file := (rget file (str "source_file")).getD [],
                      f_function := (rget file (str "function")).getD [],
                      f_line := lineVal,
                      f_message := (rget file (str "message")).getD [],
                      f_priority := prioVal,
                      f_manual_down := decide (rget file (str "manual_down") = some (str "yes")),
                      f_state := .STATE_UP,
                      f_date := dateVal,
                      f_modified := modifiedVal,
                      f_tags := tagList.foldl (fun acc t => insertTag t acc) [],
                      f_hostname := (rget file (str "hostname")).getD [],
                      f_version := (rget file (str "version")).getD [],
                      f_count := countVal }

/-!  ## flag::load_flags (flags.cpp 1077-1122) -/

/-- Modelled from the spec: FLAGS_LIMIT is declared in the missing header
communicatord/flags.h; the spec (§4.4) fixes the default ceiling at 100
and claim C1 states FLAGS_LIMIT = 100. -/
def FLAGS_LIMIT : Nat := 100

/-- Modelled from the spec: the COMMUNICATORD_FLAG_UP macro lives in the
missing header communicatord/flags.h.  Per the in-source documentation
(flags.cpp 221-229) and spec §4.2/§6 it constructs a new flag from the
three names, records the call-site breadcrumbs (source file, function and
line - compile-time constants at the use site, observed by no claim and
left at their defaults here), sets the message, and the state is the UP
default.  It does not call save(); the conventional pattern (spec §6) is
construct, set fields, then save. -/
def COMMUNICATORD_FLAG_UP (unit sect nm msg : Str) : Except flag_error flag :=
  match flag.make unit sect nm with
  | .error e => .error e
  | .ok f => .ok ((f.set_message msg).set_state .STATE_UP)

/-- The sentinel message: "too many flags were raised, ..." with the path
quoted at the end. -/
def too_many_flags_message (path : Str) : Str :=
  str "too many flags were raised, showing only the first 100, others can be viewed on this system at \"" ++ path ++ str "\""

/-- The loop of load_flags over the glob result: once the accumulated size
reaches FLAGS_LIMIT, synthesize the too-many-flags sentinel, append it and
stop; otherwise load the file (an exception from the constructor
propagates out: the loop has no handler). -/
def load_flags_loop (path : Str) (fs : Fs) :
    List Str → List flag → Except flag_error (List flag)
  | [], result => .ok result
  | filename :: rest, result =>
    if FLAGS_LIMIT ≤ result.length then
      match COMMUNICATORD_FLAG_UP (str "communicatord") (str "flag")
          (str "too-many-flags") (too_many_flags_message path) with
      | .error e => .error e
      | .ok fl =>
        let fl2 := ((fl.set_priority 97).add_tag (str "flag")).add_tag (str "too-many")
        .ok (result ++ [fl2])
    else
      match flag.load filename fs with
      | .error e => .error e
      | .ok fl => load_flags_loop path fs rest (result ++ [fl])

/-- flag::load_flags.  The glob_to_list enumeration of path/*.flag is the
external directory collaborator, passed as `files`; `cache` is the
resolved g_path_to_flag_files value (the unresolved case never returns,
see get_path_unresolved_diverges).  The second component is the
filesystem after the call: the body performs no write, so it is returned
unchanged - in particular the sentinel flag is never saved. -/
def load_flags (cache : Str) (files : List Str) (fs : Fs) :
    Except flag_error (List flag) × Fs :=
  if cache = [] then (.ok [], fs)
  else (load_flags_loop cache fs files [], fs)

/-!  ## Derived values and concrete fixtures -/

/-- The filename flag::get_filename resolves for this flag under the given
(resolved) path cache. -/
def resolved_filename (cache : Str) (f : flag) : Str := (flag.get_filename cache f).1

/-- A sample well-formed flag, as built by flag::flag("aa", "bb", "cc"). -/
def sample_flag : flag :=
  { flag.default_fields with f_unit := str "aa", f_section := str "bb", f_name := str "cc" }

/-!  ## Fixtures for the priority claims -/

/-- The durable record of a flag file whose priority field holds 250. -/
def overPriorityRecord : Record := fun k =>
  if k = str "unit" then some (str "aa")
  else if k = str "section" then some (str "bb")
  else if k = str "name" then some (str "cc")
  else if k = str "message" then some (str "mm")
  else if k = str "priority" then some (str "250")
  else none

/-- Flags obtainable from the three-name constructor through any sequence
of setter calls (the file-loading constructor deliberately excluded). -/
inductive Reachable : flag → Prop
  | make : ∀ u s n f, flag.make u s n = .ok f → Reachable f
  | set_state : ∀ f s, Reachable f → Reachable (f.set_state s)
  | set_source_file : ∀ f v, Reachable f → Reachable (f.set_source_file v)
  | set_function : ∀ f v, Reachable f → Reachable (f.set_function v)
  | set_line : ∀ f v, Reachable f → Reachable (f.set_line v)
  | set_message : ∀ f v, Reachable f → Reachable (f.set_message v)
  | set_priority : ∀ f p, Reachable f → Reachable (f.set_priority p)
  | set_manual_down : ∀ f b, Reachable f → Reachable (f.set_manual_down b)
  | add_tag : ∀ f t, Reachable f → Reachable (f.add_tag t)

/-!  ## The record written by an UP save -/

/-- The parameter map save() ends up writing on an UP save, as a function
of the starting map (the pre-existing record, or emptyRecord when the file
did not exist), the has_date flag it computed, and the final count string;
this names the rset chain of flag.save. -/
def up_record (f : flag) (now : Int) (host ver : Str) (file0 : Record)
    (has_date : Bool) (countStr : Str) : Record :=
  let r1 := rset file0 (str "unit") f.f_unit
  let r2 := rset r1 (str "section") f.f_section
  let r3 := rset r2 (str "name") f.f_name
  let r4 := rset r3 (str "source_file") f.f_source_file
  let r5 := rset r4 (str "function") f.f_function
  let r6 := rset r5 (str "line") (intToStr f.f_line)
  let r7 := rset r6 (str "message") f.f_message
  let r8 := rset r7 (str "priority") (intToStr f.f_priority)
  let r9 := rset r8 (str "manual_down") (if f.f_manual_down then str "yes" else str "no")
  let r10 := if has_date then r9 else rset r9 (str "date") (intToStr now)
  let r11 := rset r10 (str "modified") (intToStr now)
  let r12 := rset r11 (str "tags") (joinTags f.f_tags)
  let r13 := rset r12 (str "hostname") host
  let r14 := rset r13 (str "version") ver
  rset r14 (str "count") countStr

/-!  ## The load_flags loop -/

/-- The flag a successful flag.load returns (default_fields when it
failed; used only under a success hypothesis). -/
def load_ok (p : Str) (fs : Fs) : flag :=
  match flag.load p fs with
  | .ok g => g
  | .error _ => flag.default_fields

/-- The sentinel flag the loop synthesizes once the limit is hit, fully
evaluated: identity communicatord/flag/too-many-flags, priority 97, tags
flag and too-many, state UP, not saved. -/
def sentinel_flag (path : Str) : flag :=
  { flag.default_fields with
    f_unit := str "communicatord"
    f_section := str "flag"
    f_name := str "too-many-flags"
    f_message := too_many_flags_message path
    f_priority := 97
    f_tags := [str "flag", str "too-many"] }

/-- The record of a well-formed minimal flag file. -/
def basic_record : Record := fun k =>
  if k = str "unit" then some (str "aa")
  else if k = str "section" then some (str "bb")
  else if k = str "name" then some (str "cc")
  else if k = str "message" then some (str "mm")
  else none

/-- A record lacking the mandatory message field. -/
def no_message_record : Record := fun k =>
  if k = str "unit" then some (str "aa")
  else if k = str "section" then some (str "bb")
  else if k = str "name" then some (str "cc")
  else none

/-- The 101 flag files named f0 .. f100 (102 is the byte f). -/
def many_files : List Str := (List.range 101).map (fun i => 102 :: natToStr i)

/-- Every file whose name starts with the byte f holds basic_record. -/
def many_fs : Fs := fun n => if n.headI = 102 then some basic_record else none

/-- The two-file directory of the C2 scenario: one bad record (no message
field) followed by one good record. -/
def two_file_fs : Fs := fun n =>
  if n = str "bad.flag" then some no_message_record
  else if n = str "good.flag" then some basic_record
  else none

theorem lowerByte_not_upper {c : Nat} (h : ¬(65 ≤ c ∧ c ≤ 90)) : lowerByte c = c := by
  simp [lowerByte, h]

theorem lowerByte_upper {c : Nat} (h : 65 ≤ c ∧ c ≤ 90) : lowerByte c = c + 32 := by
  simp [lowerByte, h]

theorem vn_finish_eq (s : Str) : ∀ last : Nat,
    vn_finish s last =
      if nameRest (s.map lowerByte) (decide (last = 45)) then some (s.map lowerByte)
      else none := by
  induction s with
  | nil =>
    intro last
    by_cases hl : last = 45 <;> simp [vn_finish, vn_loop, nameRest, hl]
  | cons c rest ih =>
    intro last
    by_cases h1 : c = 45
    · subst h1
      have hm : lowerByte 45 = 45 := by decide
      have hld : lowerOrDigit 45 = false := by decide
      by_cases hl : last = 45
      · simp [vn_finish, vn_loop, hl, nameRest, List.map_cons, hm, hld]
      · rw [decide_eq_false hl]
        have ih' := ih 45
        rw [decide_eq_true (rfl : (45 : Nat) = 45)] at ih'
        cases hX : vn_loop rest false 45 with
        | error e =>
          simp only [vn_finish, hX] at ih'
          by_cases hb : nameRest (rest.map lowerByte) true
          · rw [if_pos hb] at ih'; exact absurd ih' (by simp)
          · simp [vn_finish, vn_loop, hl, hX, nameRest, List.map_cons, hm, hld, hb]
        | ok rl =>
          obtain ⟨r, l⟩ := rl
          simp only [vn_finish, hX] at ih'
          by_cases hb : nameRest (rest.map lowerByte) true
          · rw [if_pos hb] at ih'
            by_cases hlq : l = 45
            · rw [if_pos hlq] at ih'; exact absurd ih' (by simp)
            · rw [if_neg hlq] at ih'
              have hr := Option.some.inj ih'
              simp [vn_finish, vn_loop, hl, hX, hlq, nameRest, List.map_cons,
                hm, hld, hb, hr]
          · rw [if_neg hb] at ih'
            by_cases hlq : l = 45
            · simp [vn_finish, vn_loop, hl, hX, hlq, nameRest, List.map_cons,
                hm, hld, hb]
            · rw [if_neg hlq] at ih'; exact absurd ih' (by simp)
    · by_cases h2 : 48 ≤ c ∧ c ≤ 57
      · have hm : lowerByte c = c := lowerByte_not_upper (by omega)
        have hld : lowerOrDigit c = true := by simp [lowerOrDigit]; omega
        have ih' := ih c
        rw [decide_eq_false h1] at ih'
        cases hX : vn_loop rest false c with
        | error e =>
          simp only [vn_finish, hX] at ih'
          by_cases hb : nameRest (rest.map lowerByte) false
          · rw [if_pos hb] at ih'; exact absurd ih' (by simp)
          · simp [vn_finish, vn_loop, h1, h2, hX, nameRest, List.map_cons, hm, hld, hb]
        | ok rl =>
          obtain ⟨r, l⟩ := rl
          simp only [vn_finish, hX] at ih'
          by_cases hb : nameRest (rest.map lowerByte) false
          · rw [if_pos hb] at ih'
            by_cases hlq : l = 45
            · rw [if_pos hlq] at ih'; exact absurd ih' (by simp)
            · rw [if_neg hlq] at ih'
              have hr := Option.some.inj ih'
              simp [vn_finish, vn_loop, h1, h2, hX, hlq, nameRest, List.map_cons,
                hm, hld, hb, hr]
          · rw [if_neg hb] at ih'
            by_cases hlq : l = 45
            · simp [vn_finish, vn_loop, h1, h2, hX, hlq, nameRest, List.map_cons,
                hm, hld, hb]
            · rw [if_neg hlq] at ih'; exact absurd ih' (by simp)
      · by_cases h3 : 65 ≤ c ∧ c ≤ 90
        · have hm : lowerByte c = c + 32 := lowerByte_upper h3
          have hld : lowerOrDigit (c + 32) = true := by simp [lowerOrDigit]; omega
          have ih' := ih (c + 32)
          rw [decide_eq_false (by omega : ¬(c + 32 = 45))] at ih'
          cases hX : vn_loop rest false (c + 32) with
          | error e =>
            simp only [vn_finish, hX] at ih'
            by_cases hb : nameRest (rest.map lowerByte) false
            · rw [if_pos hb] at ih'; exact absurd ih' (by simp)
            · simp [vn_finish, vn_loop, h1, h2, h3, hX, nameRest, List.map_cons,
                hm, hld, hb]
          | ok rl =>
            obtain ⟨r, l⟩ := rl
            simp only [vn_finish, hX] at ih'
            by_cases hb : nameRest (rest.map lowerByte) false
            · rw [if_pos hb] at ih'
              by_cases hlq : l = 45
              · rw [if_pos hlq] at ih'; exact absurd ih' (by simp)
              · rw [if_neg hlq] at ih'
                have hr := Option.some.inj ih'
                simp [vn_finish, vn_loop, h1, h2, h3, hX, hlq, nameRest,
                  List.map_cons, hm, hld, hb, hr]
            · rw [if_neg hb] at ih'
              by_cases hlq : l = 45
              · simp [vn_finish, vn_loop, h1, h2, h3, hX, hlq, nameRest,
                  List.map_cons, hm, hld, hb]
              · rw [if_neg hlq] at ih'; exact absurd ih' (by simp)
        · by_cases h4 : 97 ≤ c ∧ c ≤ 122
          · have hm : lowerByte c = c := lowerByte_not_upper h3
            have hld : lowerOrDigit c = true := by simp [lowerOrDigit]; omega
            have ih' := ih c
            rw [decide_eq_false h1] at ih'
            cases hX : vn_loop rest false c with
            | error e =>
              simp only [vn_finish, hX] at ih'
              by_cases hb : nameRest (rest.map lowerByte) false
              · rw [if_pos hb] at ih'; exact absurd ih' (by simp)
              · simp [vn_finish, vn_loop, h1, h2, h3, h4, hX, nameRest,
                  List.map_cons, hm, hld, hb]
            | ok rl =>
              obtain ⟨r, l⟩ := rl
              simp only [vn_finish, hX] at ih'
              by_cases hb : nameRest (rest.map lowerByte) false
              · rw [if_pos hb] at ih'
                by_cases hlq : l = 45
                · rw [if_pos hlq] at ih'; exact absurd ih' (by simp)
                · rw [if_neg hlq] at ih'
                  have hr := Option.some.inj ih'
                  simp [vn_finish, vn_loop, h1, h2, h3, h4, hX, hlq, nameRest,
                    List.map_cons, hm, hld, hb, hr]
              · rw [if_neg hb] at ih'
                by_cases hlq : l = 45
                · simp [vn_finish, vn_loop, h1, h2, h3, h4, hX, hlq, nameRest,
                    List.map_cons, hm, hld, hb]
                · rw [if_neg hlq] at ih'; exact absurd ih' (by simp)
          · have hm : lowerByte c = c := lowerByte_not_upper h3
            have hld : lowerOrDigit c = false := by simp [lowerOrDigit]; omega
            simp [vn_finish, vn_loop, h1, h2, h3, h4, nameRest, List.map_cons,
              hm, hld]

/-- Full behaviour of the validator: it accepts exactly the strings whose
lowercase folding matches the grammar, and returns that folding. -/
theorem valid_name_eq (s : Str) :
    exOut (valid_name s) =
      if goodName (s.map lowerByte) then some (s.map lowerByte) else none := by
  cases s with
  | nil => simp [valid_name, exOut, goodName]
  | cons c rest =>
    by_cases h1 : c = 45
    · subst h1
      have hm : lowerByte 45 = 45 := by decide
      simp [valid_name, vn_loop, exOut, goodName, List.map_cons, hm]
    · by_cases h2 : 48 ≤ c ∧ c ≤ 57
      · have hm : lowerByte c = c := lowerByte_not_upper (by omega)
        have hhead : decide (97 ≤ c ∧ c ≤ 122) = false := decide_eq_false (by omega)
        simp [valid_name, vn_loop, h1, h2, exOut, goodName, List.map_cons, hm, hhead]
      · by_cases h3 : 65 ≤ c ∧ c ≤ 90
        · have hm : lowerByte c = c + 32 := lowerByte_upper h3
          have hhead : decide (97 ≤ c + 32 ∧ c + 32 ≤ 122) = true :=
            decide_eq_true (by omega)
          have hfin := vn_finish_eq rest (c + 32)
          rw [decide_eq_false (by omega : ¬(c + 32 = 45))] at hfin
          cases hX : vn_loop rest false (c + 32) with
          | error e =>
            simp only [vn_finish, hX] at hfin
            by_cases hb : nameRest (rest.map lowerByte) false
            · rw [if_pos hb] at hfin; exact absurd hfin (by simp)
            · simp [valid_name, vn_loop, h1, h2, h3, hX, exOut, goodName,
                List.map_cons, hm, hhead, hb]
          | ok rl =>
            obtain ⟨r, l⟩ := rl
            simp only [vn_finish, hX] at hfin
            by_cases hb : nameRest (rest.map lowerByte) false
            · rw [if_pos hb] at hfin
              by_cases hlq : l = 45
              · rw [if_pos hlq] at hfin; exact absurd hfin (by simp)
              · rw [if_neg hlq] at hfin
                have hr := Option.some.inj hfin
                simp [valid_name, vn_loop, h1, h2, h3, hX, hlq, exOut, goodName,
                  List.map_cons, hm, hhead, hb, hr]
            · rw [if_neg hb] at hfin
              by_cases hlq : l = 45
              · simp [valid_name, vn_loop, h1, h2, h3, hX, hlq, exOut, goodName,
                  List.map_cons, hm, hhead, hb]
              · rw [if_neg hlq] at hfin; exact absurd hfin (by simp)
        · by_cases h4 : 97 ≤ c ∧ c ≤ 122
          · have hm : lowerByte c = c := lowerByte_not_upper h3
            have hhead : decide (97 ≤ c ∧ c ≤ 122) = true := decide_eq_true (by omega)
            have hfin := vn_finish_eq rest c
            rw [decide_eq_false h1] at hfin
            cases hX : vn_loop rest false c with
            | error e =>
              simp only [vn_finish, hX] at hfin
              by_cases hb : nameRest (rest.map lowerByte) false
              · rw [if_pos hb] at hfin; exact absurd hfin (by simp)
              · simp [valid_name, vn_loop, h1, h2, h3, h4, hX, exOut, goodName,
                  List.map_cons, hm, hhead, hb]
            | ok rl =>
              obtain ⟨r, l⟩ := rl
              simp only [vn_finish, hX] at hfin
              by_cases hb : nameRest (rest.map lowerByte) false
              · rw [if_pos hb] at hfin
                by_cases hlq : l = 45
                · rw [if_pos hlq] at hfin; exact absurd hfin (by simp)
                · rw [if_neg hlq] at hfin
                  have hr := Option.some.inj hfin
                  simp [valid_name, vn_loop, h1, h2, h3, h4, hX, hlq, exOut,
                    goodName, List.map_cons, hm, hhead, hb, hr]
              · rw [if_neg hb] at hfin
                by_cases hlq : l = 45
                · simp [valid_name, vn_loop, h1, h2, h3, h4, hX, hlq, exOut,
                    goodName, List.map_cons, hm, hhead, hb]
                · rw [if_neg hlq] at hfin; exact absurd hfin (by simp)
          · have hm : lowerByte c = c := lowerByte_not_upper h3
            have hhead : decide (97 ≤ c ∧ c ≤ 122) = false := decide_eq_false (by omega)
            simp [valid_name, vn_loop, h1, h2, h3, h4, exOut, goodName,
              List.map_cons, hm, hhead]

/-- C7: for every input string the name validator either fails with
InvalidName or returns the input folded to lowercase, and it succeeds
exactly when that folding matches ^[a-z][a-z0-9]*(-[a-z0-9]+)*$ (encoded by
`goodName`); in particular the empty string, a leading dash or digit, a
double dash, a trailing dash and a byte outside a-z A-Z 0-9 dash are all
rejected, and uppercase letters are folded to lowercase on acceptance. -/
theorem valid_name_matches_grammar :
    (∀ s : Str,
      exOut (valid_name s) =
        if goodName (s.map lowerByte) then some (s.map lowerByte) else none)
    ∧ valid_name (str "") = .error .invalid_name
    ∧ valid_name (str "-abc") = .error .invalid_name
    ∧ valid_name (str "abc-") = .error .invalid_name
    ∧ valid_name (str "ab--c") = .error .invalid_name
    ∧ valid_name (str "1abc") = .error .invalid_name
    ∧ valid_name (str "ab_c") = .error .invalid_name
    ∧ valid_name (str "AbC-9z") = .ok (str "abc-9z") :=
  ⟨valid_name_eq, by rfl, by rfl, by rfl, by rfl, by rfl, by rfl, by rfl⟩

theorem rget_rset_same (r : Record) (k v : Str) : rget (rset r k v) k = some v := by
  simp [rget, rset]

theorem rget_rset_other (r : Record) (k v k2 : Str) (h : k2 ≠ k) :
    rget (rset r k v) k2 = rget r k2 := by
  simp [rget, rset, h]

theorem get_filename_eq (cache : Str) (f : flag) :
    flag.get_filename cache f =
      (resolved_filename cache f, { f with f_filename := resolved_filename cache f }) := by
  unfold resolved_filename flag.get_filename
  by_cases h : f.f_filename = [] <;> simp [h]

theorem resolved_filename_ne_nil (cache : Str) (f : flag) (hc : cache ≠ []) :
    resolved_filename cache f ≠ [] := by
  unfold resolved_filename flag.get_filename
  by_cases h : f.f_filename = [] <;> simp [h, hc]

theorem resolved_filename_memoized (cache : Str) (f : flag) (h : f.f_filename ≠ []) :
    resolved_filename cache f = f.f_filename := by
  unfold resolved_filename flag.get_filename
  rw [if_neg h]

theorem sample_flag_make : flag.make (str "aa") (str "bb") (str "cc") = .ok sample_flag := by rfl

/-!  ## C3: directory resolution and termination -/

/-- C3 (code_bug evidence): with the process-wide cache unresolved (empty)
the directory-resolution function never returns a value: the body calls
itself with an unchanged state (flags.cpp line 165 invokes
get_path_to_flag_files where get_path_to_flag_files_internal - dead code -
was clearly intended), so no amount of fuel produces a result, against the
claim that resolution is a bounded local operation that returns for every
configuration state including the unresolved one. -/
theorem get_path_unresolved_diverges :
    ∀ (fuel : Nat) (env : SysEnv), get_path_to_flag_files fuel env [] = none := by
  intro fuel
  induction fuel with
  | zero => intro env; rfl
  | succ n ih => intro env; simp [get_path_to_flag_files, ih env]

/-!  ## C4: add_tag does not validate -/

/-- C4 (code_bug evidence): add_tag performs no validation: the tag
"ab--c", which valid_name rejects (double dash), is inserted into the tag
set of a freshly constructed flag all the same, and no error is raised -
against the claim (and the in-source documentation, including the
valid_name diagnostics that explicitly name tags) that every tag is
validated against the §4.1 grammar. -/
theorem add_tag_no_validation :
    valid_name (str "ab--c") = .error .invalid_name
    ∧ (match flag.make (str "aa") (str "bb") (str "cc") with
       | .ok f => (f.add_tag (str "ab--c")).f_tags
       | .error _ => []) = [str "ab--c"] :=
  ⟨by rfl, by rfl⟩

/-- C5 counterexample: loading a record whose priority field holds 250
yields an in-memory flag with priority 250, outside [0,100]: the
file-loading constructor stores the parsed value without clamping. -/
theorem priority_load_unclamped_counterexample :
    (match flag.load (str "f.flag")
        (fun n => if n = str "f.flag" then some overPriorityRecord else none) with
     | .ok g => g.f_priority
     | .error _ => 0) = 250 := by rfl

/-- C5 amended: set_priority clamps every argument into [0,100] (with the
three spec examples), and every flag built by the fresh constructor and
mutated through any setter chain keeps its priority within [0,100]; the
file-loading constructor however copies the stored priority unclamped
(see priority_load_unclamped_counterexample). -/
theorem priority_invariant_amended :
    (∀ (f : flag) (p : Int),
        0 ≤ (f.set_priority p).f_priority ∧ (f.set_priority p).f_priority ≤ 100)
    ∧ (∀ f : flag, (f.set_priority (-5)).f_priority = 0
        ∧ (f.set_priority 250).f_priority = 100
        ∧ (f.set_priority 42).f_priority = 42)
    ∧ (∀ f : flag, Reachable f → 0 ≤ f.f_priority ∧ f.f_priority ≤ 100) := by
  refine ⟨?_, ?_, ?_⟩
  · intro f p
    unfold flag.set_priority
    split_ifs with hneg hbig
    · exact ⟨le_refl (0 : Int), (by omega : (0 : Int) ≤ 100)⟩
    · exact ⟨(by omega : (0 : Int) ≤ 100), le_refl (100 : Int)⟩
    · exact ⟨(by omega : (0 : Int) ≤ p), (by omega : p ≤ (100 : Int))⟩
  · intro f
    refine ⟨?_, ?_, ?_⟩ <;> rfl
  · intro f h
    induction h with
    | make u s n g hmk =>
      unfold flag.make at hmk
      cases hu : valid_name u with
      | error e => rw [hu] at hmk; cases hmk
      | ok uv =>
        rw [hu] at hmk
        cases hs : valid_name s with
        | error e => rw [hs] at hmk; cases hmk
        | ok sv =>
          rw [hs] at hmk
          cases hn : valid_name n with
          | error e => rw [hn] at hmk; cases hmk
          | ok nv =>
            rw [hn] at hmk
            cases hmk
            exact ⟨(by omega : (0 : Int) ≤ 5), (by omega : (5 : Int) ≤ 100)⟩
    | set_state f s _ ih => exact ih
    | set_source_file f v _ ih => exact ih
    | set_function f v _ ih => exact ih
    | set_line f v _ ih => exact ih
    | set_message f v _ ih => exact ih
    | set_priority f p _ _ =>
      unfold flag.set_priority
      split_ifs with hneg hbig
      · exact ⟨le_refl (0 : Int), (by omega : (0 : Int) ≤ 100)⟩
      · exact ⟨(by omega : (0 : Int) ≤ 100), le_refl (100 : Int)⟩
      · exact ⟨(by omega : (0 : Int) ≤ p), (by omega : p ≤ (100 : Int))⟩
    | set_manual_down f b _ ih => exact ih
    | add_tag f t _ ih => exact ih

/-- C5 witness: the amended invariant applied to a concrete constructed
flag. -/
theorem priority_invariant_amended_witness :
    0 ≤ sample_flag.f_priority ∧ sample_flag.f_priority ≤ 100 :=
  priority_invariant_amended.2.2 sample_flag
    (Reachable.make (str "aa") (str "bb") (str "cc") sample_flag sample_flag_make)

/-!  ## C10: save only memoizes the filename -/

/-- C10: save() returns the in-memory flag unchanged except for the
f_filename memoization performed by its get_filename() call; in
particular the in-memory count, date and modified fields are untouched
(the merged values exist only in the written record), and when the
filename was already memoized the flag is returned exactly as it was. -/
theorem save_frame_condition :
    (∀ (cache : Str) (now : Int) (host ver : Str) (f : flag) (fs : Fs),
      (flag.save cache now host ver f fs).2.1 =
        { f with f_filename := resolved_filename cache f })
    ∧ (∀ (cache : Str) (now : Int) (host ver : Str) (f : flag) (fs : Fs),
        f.f_filename ≠ [] → (flag.save cache now host ver f fs).2.1 = f) := by
  have main : ∀ (cache : Str) (now : Int) (host ver : Str) (f : flag) (fs : Fs),
      (flag.save cache now host ver f fs).2.1 =
        { f with f_filename := resolved_filename cache f } := by
    intro cache now host ver f fs
    unfold flag.save
    rw [get_filename_eq]
    dsimp only
    split_ifs <;> first
      | rfl
      | (split <;> rfl)
  refine ⟨main, ?_⟩
  intro cache now host ver f fs hmemo
  rw [main]
  have : resolved_filename cache f = f.f_filename := by
    unfold resolved_filename flag.get_filename
    rw [if_neg hmemo]
  rw [this]

/-- C10 witness: a flag whose filename is already memoized is returned by
save() exactly as it was. -/
theorem save_frame_condition_witness :
    (flag.save (str "/flags") 7 (str "h") (str "v")
        { sample_flag with f_filename := str "x.flag" } (fun _ => none)).2.1 =
      { sample_flag with f_filename := str "x.flag" } :=
  save_frame_condition.2 (str "/flags") 7 (str "h") (str "v")
    { sample_flag with f_filename := str "x.flag" } (fun _ => none) (by decide)

/-!  ## C9: DOWN save deletes and is idempotent -/

/-- One DOWN save step, fully evaluated: result true, flag unchanged but
for the memoized filename, record removed. -/
theorem save_down_eq (cache : Str) (now : Int) (host ver : Str) (f : flag) (fs : Fs)
    (hc : cache ≠ []) (hdown : f.f_state = .STATE_DOWN) :
    flag.save cache now host ver f fs =
      (.ok true, { f with f_filename := resolved_filename cache f },
        fun m => if m = resolved_filename cache f then none else fs m) := by
  have hfn := resolved_filename_ne_nil cache f hc
  unfold flag.save
  rw [get_filename_eq]
  dsimp only
  rw [if_neg hfn]
  have hst : ({ f with f_filename := resolved_filename cache f } : flag).f_state
      = state_t.STATE_DOWN := hdown
  rw [hst]
  simp

/-- C9: with the flags directory resolved, saving a DOWN flag deletes the
durable record at the resolved path and returns true, and saving it again
when the record is already absent also returns true and leaves the record
absent: clearing is idempotent and never reports an error. -/
theorem save_down_idempotent (cache : Str) (now1 now2 : Int) (host ver : Str)
    (f : flag) (fs : Fs) (hc : cache ≠ []) (hdown : f.f_state = .STATE_DOWN) :
    (flag.save cache now1 host ver f fs).1 = .ok true
    ∧ (flag.save cache now1 host ver f fs).2.2 (resolved_filename cache f) = none
    ∧ (flag.save cache now2 host ver (flag.save cache now1 host ver f fs).2.1
        (flag.save cache now1 host ver f fs).2.2).1 = .ok true
    ∧ (flag.save cache now2 host ver (flag.save cache now1 host ver f fs).2.1
        (flag.save cache now1 host ver f fs).2.2).2.2 (resolved_filename cache f) = none := by
  have hfn := resolved_filename_ne_nil cache f hc
  have h1 := save_down_eq cache now1 host ver f fs hc hdown
  have hf1state : ({ f with f_filename := resolved_filename cache f } : flag).f_state
      = state_t.STATE_DOWN := hdown
  have hres : resolved_filename cache { f with f_filename := resolved_filename cache f }
      = resolved_filename cache f :=
    resolved_filename_memoized cache _ hfn
  have h2 := save_down_eq cache now2 host ver
    { f with f_filename := resolved_filename cache f }
    (fun m => if m = resolved_filename cache f then none else fs m) hc hf1state
  rw [hres] at h2
  refine ⟨?_, ?_, ?_, ?_⟩ <;> simp [h1, h2]

/-- C9 witness: the idempotent clear on a concrete DOWN flag over an empty
filesystem. -/
theorem save_down_idempotent_witness :
    (flag.save (str "/flags") 1 (str "h") (str "v")
      (sample_flag.set_state .STATE_DOWN) (fun _ => none)).1 = .ok true :=
  (save_down_idempotent (str "/flags") 1 2 (str "h") (str "v")
    (sample_flag.set_state .STATE_DOWN) (fun _ => none) (by decide) (by rfl)).1

theorem save_up_none_eq (cache : Str) (now : Int) (host ver : Str) (f : flag) (fs : Fs)
    (hc : cache ≠ []) (hup : f.f_state = .STATE_UP)
    (hrec : fs (resolved_filename cache f) = none) :
    flag.save cache now host ver f fs =
      (.ok true, { f with f_filename := resolved_filename cache f },
        fun m => if m = resolved_filename cache f
          then some (up_record f now host ver emptyRecord false (str "1"))
          else fs m) := by
  have hfn := resolved_filename_ne_nil cache f hc
  unfold flag.save
  rw [get_filename_eq]
  dsimp only
  rw [if_neg hfn, hrec]
  simp [up_record, hup]

theorem save_up_some_nocount_eq (cache : Str) (now : Int) (host ver : Str)
    (f : flag) (fs : Fs) (r0 : Record)
    (hc : cache ≠ [])  (hup : f.f_state = .STATE_UP)
    (hrec : fs (resolved_filename cache f) = some r0)
    (hcount : rget r0 (str "count") = none) :
    flag.save cache now host ver f fs =
      (.ok true, { f with f_filename := resolved_filename cache f },
        fun m => if m = resolved_filename cache f
          then some (up_record f now host ver r0 ((rget r0 (str "date")).isSome) (str "1"))
          else fs m) := by
  have hfn := resolved_filename_ne_nil cache f hc
  unfold flag.save
  rw [get_filename_eq]
  dsimp only
  rw [if_neg hfn, hrec]
  simp only [Option.getD_some, Option.isSome_some, Bool.true_and]
  rw [hcount]
  cases hdd : rget r0 (str "date") with
  | none => simp [up_record, hup]
  | some d => simp [up_record, hup]

theorem save_up_some_count_eq (cache : Str) (now : Int) (host ver : Str)
    (f : flag) (fs : Fs) (r0 : Record) (cv : Str) (n : Int)
    (hc : cache ≠ []) (hup : f.f_state = .STATE_UP)
    (hrec : fs (resolved_filename cache f) = some r0)
    (hcount : rget r0 (str "count") = some cv) (hstol : stol cv = some n) :
    flag.save cache now host ver f fs =
      (.ok true, { f with f_filename := resolved_filename cache f },
        fun m => if m = resolved_filename cache f
          then some (up_record f now host ver r0 ((rget r0 (str "date")).isSome)
            (intToStr (n + 1)))
          else fs m) := by
  have hfn := resolved_filename_ne_nil cache f hc
  have hc2 : r0 (str "count") = some cv := hcount
  unfold flag.save
  rw [get_filename_eq]
  dsimp only
  rw [if_neg hfn, hrec]
  simp only [Option.getD_some, Option.isSome_some, Bool.true_and]
  rw [hcount]
  have hk0 : (str "count" = str "version") = False := eq_false (by decide)
  have hk1 : (str "count" = str "hostname") = False := eq_false (by decide)
  have hk2 : (str "count" = str "tags") = False := eq_false (by decide)
  have hk3 : (str "count" = str "modified") = False := eq_false (by decide)
  have hk4 : (str "count" = str "date") = False := eq_false (by decide)
  have hk5 : (str "count" = str "manual_down") = False := eq_false (by decide)
  have hk6 : (str "count" = str "priority") = False := eq_false (by decide)
  have hk7 : (str "count" = str "message") = False := eq_false (by decide)
  have hk8 : (str "count" = str "line") = False := eq_false (by decide)
  have hk9 : (str "count" = str "function") = False := eq_false (by decide)
  have hk10 : (str "count" = str "source_file") = False := eq_false (by decide)
  have hk11 : (str "count" = str "name") = False := eq_false (by decide)
  have hk12 : (str "count" = str "section") = False := eq_false (by decide)
  have hk13 : (str "count" = str "unit") = False := eq_false (by decide)
  cases hdd : rget r0 (str "date") with
  | none => simp [up_record, hup, rget, rset, hc2, hstol, hk0, hk1, hk2, hk3, hk4, hk5, hk6, hk7, hk8, hk9, hk10, hk11, hk12, hk13]
  | some d => simp [up_record, hup, rget, rset, hc2, hstol, hk0, hk1, hk2, hk3, hk4, hk5, hk6, hk7, hk8, hk9, hk10, hk11, hk12, hk13]

/-!  ## Reading back the written record, key by key -/

theorem up_record_count (f : flag) (now : Int) (host ver : Str) (file0 : Record)
    (hd : Bool) (cs : Str) :
    rget (up_record f now host ver file0 hd cs) (str "count") = some cs := rfl

theorem up_record_version (f : flag) (now : Int) (host ver : Str) (file0 : Record)
    (hd : Bool) (cs : Str) :
    rget (up_record f now host ver file0 hd cs) (str "version") = some ver := rfl

theorem up_record_hostname (f : flag) (now : Int) (host ver : Str) (file0 : Record)
    (hd : Bool) (cs : Str) :
    rget (up_record f now host ver file0 hd cs) (str "hostname") = some host := rfl

theorem up_record_tags (f : flag) (now : Int) (host ver : Str) (file0 : Record)
    (hd : Bool) (cs : Str) :
    rget (up_record f now host ver file0 hd cs) (str "tags") = some (joinTags f.f_tags) := rfl

theorem up_record_modified (f : flag) (now : Int) (host ver : Str) (file0 : Record)
    (hd : Bool) (cs : Str) :
    rget (up_record f now host ver file0 hd cs) (str "modified") = some (intToStr now) := rfl

theorem up_record_date_true (f : flag) (now : Int) (host ver : Str) (file0 : Record)
    (cs : Str) :
    rget (up_record f now host ver file0 true cs) (str "date") = rget file0 (str "date") := rfl

theorem up_record_date_false (f : flag) (now : Int) (host ver : Str) (file0 : Record)
    (cs : Str) :
    rget (up_record f now host ver file0 false cs) (str "date") = some (intToStr now) := rfl

theorem up_record_manual_down (f : flag) (now : Int) (host ver : Str) (file0 : Record)
    (hd : Bool) (cs : Str) :
    rget (up_record f now host ver file0 hd cs) (str "manual_down")
      = some (if f.f_manual_down then str "yes" else str "no") := by
  cases hd <;> rfl

theorem up_record_priority (f : flag) (now : Int) (host ver : Str) (file0 : Record)
    (hd : Bool) (cs : Str) :
    rget (up_record f now host ver file0 hd cs) (str "priority")
      = some (intToStr f.f_priority) := by
  cases hd <;> rfl

theorem up_record_message (f : flag) (now : Int) (host ver : Str) (file0 : Record)
    (hd : Bool) (cs : Str) :
    rget (up_record f now host ver file0 hd cs) (str "message") = some f.f_message := by
  cases hd <;> rfl

theorem up_record_line (f : flag) (now : Int) (host ver : Str) (file0 : Record)
    (hd : Bool) (cs : Str) :
    rget (up_record f now host ver file0 hd cs) (str "line") = some (intToStr f.f_line) := by
  cases hd <;> rfl

theorem up_record_function (f : flag) (now : Int) (host ver : Str) (file0 : Record)
    (hd : Bool) (cs : Str) :
    rget (up_record f now host ver file0 hd cs) (str "function") = some f.f_function := by
  cases hd <;> rfl

theorem up_record_source_file (f : flag) (now : Int) (host ver : Str) (file0 : Record)
    (hd : Bool) (cs : Str) :
    rget (up_record f now host ver file0 hd cs) (str "source_file")
      = some f.f_source_file := by
  cases hd <;> rfl

theorem up_record_name (f : flag) (now : Int) (host ver : Str) (file0 : Record)
    (hd : Bool) (cs : Str) :
    rget (up_record f now host ver file0 hd cs) (str "name") = some f.f_name := by
  cases hd <;> rfl

theorem up_record_section (f : flag) (now : Int) (host ver : Str) (file0 : Record)
    (hd : Bool) (cs : Str) :
    rget (up_record f now host ver file0 hd cs) (str "section") = some f.f_section := by
  cases hd <;> rfl

theorem up_record_unit (f : flag) (now : Int) (host ver : Str) (file0 : Record)
    (hd : Bool) (cs : Str) :
    rget (up_record f now host ver file0 hd cs) (str "unit") = some f.f_unit := by
  cases hd <;> rfl

/-!  ## C6: merge-on-raise -/

/-- C6: an UP save merges over the pre-existing on-disk record: the
written date keeps the pre-existing date when one exists and is now
otherwise; modified is always now; count is the pre-existing count plus
one when present and 1 otherwise - and therefore saving the same triple
twice preserves the original date, advances modified, and takes count
from 1 to 2. -/
theorem save_merge_on_raise :
    (∀ (cache : Str) (now : Int) (host ver : Str) (f : flag) (fs : Fs),
      cache ≠ [] → f.f_state = .STATE_UP →
      (∀ cv, rget ((fs (resolved_filename cache f)).getD emptyRecord) (str "count")
          = some cv → (stol cv).isSome) →
      ∃ rec, (flag.save cache now host ver f fs).1 = .ok true
        ∧ (flag.save cache now host ver f fs).2.2 (resolved_filename cache f) = some rec
        ∧ rget rec (str "modified") = some (intToStr now)
        ∧ rget rec (str "date") =
            some (match fs (resolved_filename cache f) with
              | none => intToStr now
              | some r0 =>
                match rget r0 (str "date") with
                | none => intToStr now
                | some d => d)
        ∧ rget rec (str "count") =
            some (match fs (resolved_filename cache f) with
              | none => str "1"
              | some r0 =>
                match rget r0 (str "count") with
                | none => str "1"
                | some cv => intToStr ((stol cv).getD 0 + 1)))
    ∧ (∀ (cache : Str) (now1 now2 : Int) (host ver : Str) (f : flag) (fs : Fs),
      cache ≠ [] → f.f_state = .STATE_UP →
      fs (resolved_filename cache f) = none →
      ∃ rec2,
        (flag.save cache now2 host ver
            (flag.save cache now1 host ver f fs).2.1
            (flag.save cache now1 host ver f fs).2.2).2.2
          (resolved_filename cache f) = some rec2
        ∧ rget rec2 (str "date") = some (intToStr now1)
        ∧ rget rec2 (str "modified") = some (intToStr now2)
        ∧ rget rec2 (str "count") = some (str "2")) := by
  constructor
  · intro cache now host ver f fs hc hup hcnt
    cases hrec : fs (resolved_filename cache f) with
    | none =>
      have hstep := save_up_none_eq cache now host ver f fs hc hup hrec
      refine ⟨up_record f now host ver emptyRecord false (str "1"), ?_, ?_, ?_, ?_, ?_⟩
      · rw [hstep]
      · rw [hstep]; simp
      · exact up_record_modified f now host ver emptyRecord false (str "1")
      · exact up_record_date_false f now host ver emptyRecord (str "1")
      · exact up_record_count f now host ver emptyRecord false (str "1")
    | some r0 =>
      cases hcnt0 : rget r0 (str "count") with
      | none =>
        have hstep := save_up_some_nocount_eq cache now host ver f fs r0 hc hup hrec hcnt0
        refine ⟨up_record f now host ver r0 ((rget r0 (str "date")).isSome) (str "1"),
          ?_, ?_, ?_, ?_, ?_⟩
        · rw [hstep]
        · rw [hstep]; simp
        · exact up_record_modified f now host ver r0 _ (str "1")
        · show rget (up_record f now host ver r0 ((rget r0 (str "date")).isSome) (str "1"))
              (str "date")
            = some (match rget r0 (str "date") with
              | none => intToStr now
              | some d => d)
          cases hdd : rget r0 (str "date") with
          | none => exact up_record_date_false f now host ver r0 (str "1")
          | some d => exact (up_record_date_true f now host ver r0 (str "1")).trans hdd
        · show rget (up_record f now host ver r0 ((rget r0 (str "date")).isSome) (str "1"))
              (str "count")
            = some (match rget r0 (str "count") with
              | none => str "1"
              | some cv0 => intToStr ((stol cv0).getD 0 + 1))
          rw [hcnt0]
          exact up_record_count f now host ver r0 _ (str "1")
      | some cv =>
        have hiss : (stol cv).isSome := by
          apply hcnt cv
          rw [hrec]
          simpa using hcnt0
        obtain ⟨nval, hstol⟩ := Option.isSome_iff_exists.mp hiss
        have hstep := save_up_some_count_eq cache now host ver f fs r0 cv nval
          hc hup hrec hcnt0 hstol
        refine ⟨up_record f now host ver r0 ((rget r0 (str "date")).isSome)
          (intToStr (nval + 1)), ?_, ?_, ?_, ?_, ?_⟩
        · rw [hstep]
        · rw [hstep]; simp
        · exact up_record_modified f now host ver r0 _ _
        · show rget (up_record f now host ver r0 ((rget r0 (str "date")).isSome)
              (intToStr (nval + 1))) (str "date")
            = some (match rget r0 (str "date") with
              | none => intToStr now
              | some d => d)
          cases hdd : rget r0 (str "date") with
          | none => exact up_record_date_false f now host ver r0 _
          | some d => exact (up_record_date_true f now host ver r0 _).trans hdd
        · show rget (up_record f now host ver r0 ((rget r0 (str "date")).isSome)
              (intToStr (nval + 1))) (str "count")
            = some (match rget r0 (str "count") with
              | none => str "1"
              | some cv0 => intToStr ((stol cv0).getD 0 + 1))
          rw [hcnt0]
          refine (up_record_count f now host ver r0 _ _).trans ?_
          show some (intToStr (nval + 1)) = some (intToStr ((stol cv).getD 0 + 1))
          rw [hstol]
          rfl
  · intro cache now1 now2 host ver f fs hc hup hrec
    have hfn := resolved_filename_ne_nil cache f hc
    have h1 := save_up_none_eq cache now1 host ver f fs hc hup hrec
    have hup1 : ({ f with f_filename := resolved_filename cache f } : flag).f_state
        = state_t.STATE_UP := hup
    have hres : resolved_filename cache { f with f_filename := resolved_filename cache f }
        = resolved_filename cache f := resolved_filename_memoized cache _ hfn
    have hrec1 : (fun m => if m = resolved_filename cache f
          then some (up_record f now1 host ver emptyRecord false (str "1"))
          else fs m)
        (resolved_filename cache { f with f_filename := resolved_filename cache f })
        = some (up_record f now1 host ver emptyRecord false (str "1")) := by
      rw [hres]; simp
    have hcnt1 : rget (up_record f now1 host ver emptyRecord false (str "1")) (str "count")
        = some (str "1") := up_record_count f now1 host ver emptyRecord false (str "1")
    have hstol1 : stol (str "1") = some 1 := by rfl
    have h2 := save_up_some_count_eq cache now2 host ver
      { f with f_filename := resolved_filename cache f }
      (fun m => if m = resolved_filename cache f
        then some (up_record f now1 host ver emptyRecord false (str "1"))
        else fs m)
      (up_record f now1 host ver emptyRecord false (str "1")) (str "1") 1
      hc hup1 hrec1 hcnt1 hstol1
    rw [hres] at h2
    refine ⟨up_record { f with f_filename := resolved_filename cache f } now2 host ver
      (up_record f now1 host ver emptyRecord false (str "1"))
      ((rget (up_record f now1 host ver emptyRecord false (str "1")) (str "date")).isSome)
      (intToStr (1 + 1)), ?_, ?_, ?_, ?_⟩
    · rw [h1]
      dsimp only
      rw [h2]
      simp
    · exact ((up_record_date_true
        { f with f_filename := resolved_filename cache f } now2 host ver
        (up_record f now1 host ver emptyRecord false (str "1"))
        (intToStr (1 + 1))).trans
          (up_record_date_false f now1 host ver emptyRecord (str "1")))
    · exact up_record_modified _ now2 host ver _ _ _
    · exact (up_record_count _ now2 host ver _ _ _).trans (by rfl)

/-- C6 witness: the merge theorem applied to a fresh concrete save. -/
theorem save_merge_on_raise_witness :
    (flag.save (str "/flags") 7 (str "h") (str "v") sample_flag (fun _ => none)).1
      = .ok true := by
  obtain ⟨rec, h1, _⟩ := save_merge_on_raise.1 (str "/flags") 7 (str "h") (str "v")
    sample_flag (fun _ => none) (by decide) (by rfl)
    (fun cv h => absurd h (by simp [rget, emptyRecord]))
  exact h1

/-!  ## Decimal round trip: stol after intToStr -/

theorem natDigits_digits : ∀ (fuel n : Nat), ∀ c ∈ natDigits fuel n, 48 ≤ c ∧ c ≤ 57 := by
  intro fuel
  induction fuel with
  | zero => intro n c hc; simp [natDigits] at hc
  | succ m ih =>
    intro n c hc
    by_cases hn : n = 0
    · simp [natDigits, hn] at hc
    · simp only [natDigits, if_neg hn] at hc
      rcases List.mem_append.mp hc with h | h
      · exact ih _ _ h
      · simp at h
        omega

theorem digitsVal_append (xs ys : Str) (hx : ∀ c ∈ xs, 48 ≤ c ∧ c ≤ 57) :
    ∀ acc, digitsVal (xs ++ ys) acc = digitsVal ys (digitsVal xs acc) := by
  induction xs with
  | nil => intro acc; rfl
  | cons c cs ih =>
    intro acc
    have hc := hx c (by simp)
    simp only [List.cons_append, digitsVal, if_pos hc]
    exact ih (fun d hd => hx d (by simp [hd])) _

theorem digitsVal_natDigits : ∀ (fuel n acc : Nat), n ≤ fuel →
    digitsVal (natDigits fuel n) acc = acc * 10 ^ (natDigits fuel n).length + n := by
  intro fuel
  induction fuel with
  | zero =>
    intro n acc hn
    have h0 : n = 0 := by omega
    subst h0
    simp [natDigits, digitsVal]
  | succ m ih =>
    intro n acc hn
    by_cases h0 : n = 0
    · subst h0; simp [natDigits, digitsVal]
    · simp only [natDigits, if_neg h0]
      rw [digitsVal_append _ _ (natDigits_digits m (n / 10)) acc]
      have hdiv : n / 10 ≤ m := by
        have := @Nat.div_lt_self n 10 (Nat.pos_of_ne_zero h0) (by omega)
        omega
      rw [ih (n / 10) acc hdiv]
      have hd : 48 ≤ 48 + n % 10 ∧ 48 + n % 10 ≤ 57 := by omega
      simp only [digitsVal, if_pos hd, List.length_append, List.length_cons,
        List.length_nil, Nat.zero_add]
      rw [pow_succ, ← Nat.mul_assoc]
      generalize acc * 10 ^ (natDigits m (n / 10)).length = B
      omega

theorem natToStr_shape (n : Nat) :
    ∃ c cs, natToStr n = c :: cs ∧ (48 ≤ c ∧ c ≤ 57) ∧ (∀ d ∈ cs, 48 ≤ d ∧ d ≤ 57) := by
  by_cases h0 : n = 0
  · subst h0
    exact ⟨48, [], rfl, by omega, by simp⟩
  · have hne : natToStr n ≠ [] := by
      unfold natToStr natDigits
      rcases Nat.exists_eq_succ_of_ne_zero h0 with ⟨m, hm⟩
      subst hm
      simp
    rcases List.exists_cons_of_ne_nil hne with ⟨c, cs, hcons⟩
    refine ⟨c, cs, hcons, ?_, ?_⟩
    · have : c ∈ natToStr n := by rw [hcons]; simp
      unfold natToStr at this
      rw [if_neg h0] at this
      exact natDigits_digits n n c this
    · intro d hd
      have : d ∈ natToStr n := by rw [hcons]; simp [hd]
      unfold natToStr at this
      rw [if_neg h0] at this
      exact natDigits_digits n n d this

theorem digitsVal_natToStr (n : Nat) : digitsVal (natToStr n) 0 = n := by
  by_cases h0 : n = 0
  · subst h0; rfl
  · unfold natToStr
    rw [if_neg h0]
    rw [digitsVal_natDigits n n 0 (by omega)]
    simp

/-- std::stol inverts std::to_string. -/
theorem stol_intToStr (i : Int) : stol (intToStr i) = some i := by
  rcases natToStr_shape i.natAbs with ⟨c, cs, hcons, hc, hcs⟩
  have hnospace : isSpaceByte c = false := by
    simp [isSpaceByte]
    omega
  have hsd : startsWithDigit (natToStr i.natAbs) = true := by
    rw [hcons]
    simp [startsWithDigit, isDigit]
    omega
  unfold intToStr
  by_cases hi : i < 0
  · rw [if_pos hi]
    unfold stol
    rw [List.dropWhile_cons_of_neg (by simp [isSpaceByte])]
    simp only [if_pos rfl, hsd, if_true]
    have : (digitsVal (natToStr i.natAbs) 0 : Int) = (i.natAbs : Int) := by
      rw [digitsVal_natToStr]
    rw [this]
    have : -(i.natAbs : Int) = i := by omega
    rw [this]
  · rw [if_neg hi]
    unfold stol
    rw [hcons]
    rw [List.dropWhile_cons_of_neg (by simp [hnospace])]
    have h45 : ¬(c = 45) := by omega
    have h43 : ¬(c = 43) := by omega
    have hdig : isDigit c = true := by simp [isDigit]; omega
    dsimp only
    rw [if_neg h45, if_neg h43, if_pos hdig]
    rw [← hcons, digitsVal_natToStr]
    have : ((i.natAbs : Nat) : Int) = i := by omega
    rw [this]

/-!  ## The tags codec: tokenize after join -/

theorem insertTag_mem (t x : Str) : ∀ l : List Str, x ∈ insertTag t l ↔ x = t ∨ x ∈ l := by
  intro l
  induction l with
  | nil => simp [insertTag]
  | cons y ys ih =>
    by_cases h1 : strLtb t y
    · simp [insertTag, h1]
    · by_cases h2 : t = y
      · subst h2
        simp [insertTag, h1]
        try tauto
      · simp only [insertTag, if_neg h1, if_neg h2, List.mem_cons, ih]
        tauto

theorem foldl_insertTag_mem (x : Str) :
    ∀ (l acc : List Str),
      (x ∈ l.foldl (fun a t => insertTag t a) acc ↔ x ∈ acc ∨ x ∈ l) := by
  intro l
  induction l with
  | nil => intro acc; simp
  | cons t ts ih =>
    intro acc
    simp only [List.foldl_cons, ih, insertTag_mem, List.mem_cons]
    constructor
    · intro h
      rcases h with (h | h) | h
      · exact Or.inr (Or.inl h)
      · exact Or.inl h
      · exact Or.inr (Or.inr h)
    · intro h
      rcases h with h | h | h
      · exact Or.inl (Or.inr h)
      · exact Or.inl (Or.inl h)
      · exact Or.inr h

theorem splitComma_no44 : ∀ x : Str, (∀ c ∈ x, c ≠ 44) → splitComma x = [x] := by
  intro x
  induction x with
  | nil => intro h; rfl
  | cons c cs ih =>
    intro h
    have hc : c ≠ 44 := h c (by simp)
    simp only [splitComma, if_neg hc, ih (fun d hd => h d (by simp [hd]))]

theorem splitComma_append : ∀ (x rest : Str), (∀ c ∈ x, c ≠ 44) →
    splitComma (x ++ 44 :: rest) = x :: splitComma rest := by
  intro x rest
  induction x with
  | nil => intro h; simp [splitComma]
  | cons c cs ih =>
    intro h
    have hc : c ≠ 44 := h c (by simp)
    have ih2 := ih (fun d hd => h d (by simp [hd]))
    show splitComma (c :: (cs ++ 44 :: rest)) = (c :: cs) :: splitComma rest
    simp only [splitComma, if_neg hc]
    rw [ih2]

theorem dropWhile_eq_self {p : Nat → Bool} : ∀ l : Str, (∀ c ∈ l, p c = false) →
    l.dropWhile p = l := by
  intro l h
  cases l with
  | nil => rfl
  | cons c cs => simp [List.dropWhile_cons, h c (by simp)]

theorem trimStr_id (x : Str) (h : ∀ c ∈ x, isTrimByte c = false) : trimStr x = x := by
  unfold trimStr
  rw [dropWhile_eq_self x h]
  rw [dropWhile_eq_self x.reverse (fun c hc => h c (List.mem_reverse.mp hc))]
  exact List.reverse_reverse x

theorem tokenizeTags_joinTags : ∀ l : List Str,
    (∀ t ∈ l, t ≠ [] ∧ ∀ c ∈ t, c ≠ 44 ∧ isTrimByte c = false) →
    tokenizeTags (joinTags l) = l := by
  intro l
  induction l with
  | nil => intro h; rfl
  | cons t rest ih =>
    intro h
    obtain ⟨hne, hb⟩ := h t (by simp)
    cases rest with
    | nil =>
      show tokenizeTags (joinTags [t]) = [t]
      unfold joinTags tokenizeTags
      rw [splitComma_no44 t (fun c hc => (hb c hc).1)]
      simp [trimStr_id t (fun c hc => (hb c hc).2), hne]
    | cons t2 ts =>
      show tokenizeTags (t ++ 44 :: joinTags (t2 :: ts)) = t :: t2 :: ts
      unfold tokenizeTags
      rw [splitComma_append t _ (fun c hc => (hb c hc).1)]
      simp only [List.map_cons, List.filter_cons,
        trimStr_id t (fun c hc => (hb c hc).2)]
      have hres := ih (fun u hu => h u (by simp [hu]))
      unfold tokenizeTags at hres
      rw [hres]
      simp [hne]

/-!  ## Bytes of a grammar-valid name -/

theorem nameRest_chars : ∀ (s : Str) (ad : Bool), nameRest s ad = true →
    ∀ c ∈ s, lowerOrDigit c = true ∨ c = 45 := by
  intro s
  induction s with
  | nil => intro ad h c hc; simp at hc
  | cons c0 cs ih =>
    intro ad h c hc
    by_cases h1 : lowerOrDigit c0
    · rw [nameRest, if_pos h1] at h
      rcases List.mem_cons.mp hc with h2 | h2
      · subst h2; exact Or.inl h1
      · exact ih false h c h2
    · by_cases h2 : c0 = 45
      · rw [nameRest, if_neg h1, if_pos h2] at h
        rcases List.mem_cons.mp hc with h3 | h3
        · subst h3; exact Or.inr h2
        · simp only [Bool.and_eq_true] at h
          exact ih true h.2 c h3
      · rw [nameRest, if_neg h1, if_neg h2] at h
        cases h

theorem goodName_bytes (t : Str) (htag : goodName t = true) :
    t ≠ [] ∧ ∀ c ∈ t, c ≠ 44 ∧ isTrimByte c = false := by
  cases t with
  | nil => cases htag
  | cons c0 cs =>
    simp only [goodName, Bool.and_eq_true] at htag
    obtain ⟨hhead, hrest⟩ := htag
    refine ⟨by simp, ?_⟩
    intro c hc
    have hrange : lowerOrDigit c = true ∨ c = 45 := by
      rcases List.mem_cons.mp hc with h | h
      · subst h
        left
        have := of_decide_eq_true hhead
        simp [lowerOrDigit]
        omega
      · exact nameRest_chars cs false hrest c h
    rcases hrange with h | h
    · have := of_decide_eq_true h
      constructor
      · omega
      · simp [isTrimByte]
        omega
    · subst h
      exact ⟨by omega, by simp [isTrimByte]⟩

/-!  ## Loading back a record written by an UP save -/

theorem flag_load_up_record (fn : Str) (fs2 : Fs) (f : flag) (now : Int)
    (host ver : Str) (file0 : Record) (hd : Bool) (cs : Str)
    (hfn : fn ≠ [])
    (hfs : fs2 fn = some (up_record f now host ver file0 hd cs))
    (hdate : ∃ dv, readNum (rget (up_record f now host ver file0 hd cs) (str "date")) (-1)
      = Except.ok dv)
    (hcs : ∃ cv, stol cs = some cv)
    (htags : ∀ t ∈ f.f_tags, goodName t = true) :
    ∃ g, flag.load fn fs2 = .ok g
      ∧ g.f_unit = f.f_unit
      ∧ g.f_section = f.f_section
      ∧ g.f_name = f.f_name
      ∧ g.f_message = f.f_message
      ∧ g.f_priority = f.f_priority
      ∧ g.f_manual_down = f.f_manual_down
      ∧ (∀ t, t ∈ g.f_tags ↔ t ∈ f.f_tags)
      ∧ g.f_hostname = host
      ∧ g.f_version = ver := by
  obtain ⟨dv, hdv⟩ := hdate
  obtain ⟨cv, hcv⟩ := hcs
  unfold flag.load
  rw [if_neg hfn, hfs]
  simp only [Option.getD_some]
  rw [if_neg (by
    simp only [up_record_unit, up_record_section, up_record_name, up_record_message,
      Option.isNone_some]
    simp)]
  simp only [up_record_unit, up_record_section, up_record_name, up_record_message,
    up_record_source_file, up_record_function, up_record_line, up_record_priority,
    up_record_modified, up_record_count, up_record_tags, up_record_hostname,
    up_record_version, up_record_manual_down, readNum, stol_intToStr,
    Option.getD_some]
  simp only [readNum] at hdv
  rw [hdv]
  rw [hcv]
  refine ⟨_, rfl, rfl, rfl, rfl, rfl, rfl, ?_, ?_, rfl, rfl⟩
  · show decide (some (if f.f_manual_down then str "yes" else str "no")
        = some (str "yes")) = f.f_manual_down
    cases f.f_manual_down <;> rfl
  · intro t
    show t ∈ (tokenizeTags (joinTags f.f_tags)).foldl (fun acc t => insertTag t acc) []
      ↔ t ∈ f.f_tags
    rw [tokenizeTags_joinTags f.f_tags (fun u hu => goodName_bytes u (htags u hu))]
    rw [foldl_insertTag_mem]
    simp

/-!  ## C8: save / load round trip -/

/-- C8 counterexample: a flag carrying the tag "a,b" (insertable because
add_tag does not validate, see add_tag_no_validation) does not round-trip:
tags are serialized as one comma-joined string, so the reload splits that
tag into the two tags "a" and "b" instead of reproducing it. -/
theorem round_trip_comma_tag_counterexample :
    (sample_flag.add_tag (str "a,b")).f_tags = [str "a,b"]
    ∧ (match flag.load (resolved_filename (str "/flags") (sample_flag.add_tag (str "a,b")))
        (flag.save (str "/flags") 7 (str "h") (str "v")
          (sample_flag.add_tag (str "a,b")) (fun _ => none)).2.2 with
       | .ok g => g.f_tags
       | .error _ => []) = [str "a", str "b"] :=
  ⟨by rfl, by rfl⟩

/-- C8 amended: with the flags directory resolved, provided every tag of
the flag matches the §4.1 grammar (the uncontrolled tags admitted by
add_tag break the property: round_trip_comma_tag_counterexample), and
provided any pre-existing record at the same path has parseable date and
count fields (otherwise save or reload throws on std::stol), saving with
state UP and then constructing a new flag from the saved filename
reproduces identical unit, section, name, message, priority, manual_down
and tags (as a set), and the loaded hostname and version are the values
captured from the environment at save time, not the values the in-memory
flag held. -/
theorem save_load_round_trip_amended (cache : Str) (now : Int) (host ver : Str)
    (f : flag) (fs : Fs)
    (hc : cache ≠ []) (hup : f.f_state = .STATE_UP)
    (htags : ∀ t ∈ f.f_tags, goodName t = true)
    (hcnt : ∀ r0 cv, fs (resolved_filename cache f) = some r0 →
        rget r0 (str "count") = some cv → (stol cv).isSome)
    (hdt : ∀ r0 d, fs (resolved_filename cache f) = some r0 →
        rget r0 (str "date") = some d → (stol d).isSome) :
    ∃ g, flag.load (resolved_filename cache f)
          (flag.save cache now host ver f fs).2.2 = .ok g
      ∧ g.f_unit = f.f_unit ∧ g.f_section = f.f_section ∧ g.f_name = f.f_name
      ∧ g.f_message = f.f_message ∧ g.f_priority = f.f_priority
      ∧ g.f_manual_down = f.f_manual_down
      ∧ (∀ t, t ∈ g.f_tags ↔ t ∈ f.f_tags)
      ∧ g.f_hostname = host ∧ g.f_version = ver := by
  have hfn := resolved_filename_ne_nil cache f hc
  cases hrec : fs (resolved_filename cache f) with
  | none =>
    have hstep := save_up_none_eq cache now host ver f fs hc hup hrec
    have hload := flag_load_up_record (resolved_filename cache f)
      (fun m => if m = resolved_filename cache f
        then some (up_record f now host ver emptyRecord false (str "1"))
        else fs m)
      f now host ver emptyRecord false (str "1") hfn (by simp)
      ⟨now, by simp only [up_record_date_false, readNum, stol_intToStr]⟩
      ⟨1, by rfl⟩ htags
    rw [hstep]
    exact hload
  | some r0 =>
    have hdex : ∀ csx : Str, ∃ dvv,
        readNum (rget (up_record f now host ver r0 ((rget r0 (str "date")).isSome) csx)
          (str "date")) (-1) = Except.ok dvv := by
      intro csx
      cases hdd : rget r0 (str "date") with
      | none =>
        refine ⟨now, ?_⟩
        simp only [Option.isSome_none, up_record_date_false, readNum, stol_intToStr]
      | some d =>
        obtain ⟨dvv, hdvv⟩ := Option.isSome_iff_exists.mp (hdt r0 d hrec hdd)
        refine ⟨dvv, ?_⟩
        simp only [Option.isSome_some]
        rw [up_record_date_true, hdd]
        simp only [readNum]
        rw [hdvv]
    cases hcnt0 : rget r0 (str "count") with
    | none =>
      have hstep := save_up_some_nocount_eq cache now host ver f fs r0 hc hup hrec hcnt0
      have hload := flag_load_up_record (resolved_filename cache f)
        (fun m => if m = resolved_filename cache f
          then some (up_record f now host ver r0 ((rget r0 (str "date")).isSome) (str "1"))
          else fs m)
        f now host ver r0 ((rget r0 (str "date")).isSome) (str "1") hfn (by simp)
        (hdex (str "1")) ⟨1, by rfl⟩ htags
      rw [hstep]
      exact hload
    | some cv =>
      obtain ⟨nval, hstol⟩ := Option.isSome_iff_exists.mp (hcnt r0 cv hrec hcnt0)
      have hstep := save_up_some_count_eq cache now host ver f fs r0 cv nval
        hc hup hrec hcnt0 hstol
      have hload := flag_load_up_record (resolved_filename cache f)
        (fun m => if m = resolved_filename cache f
          then some (up_record f now host ver r0 ((rget r0 (str "date")).isSome)
            (intToStr (nval + 1)))
          else fs m)
        f now host ver r0 ((rget r0 (str "date")).isSome) (intToStr (nval + 1)) hfn
        (by simp) (hdex (intToStr (nval + 1))) ⟨nval + 1, stol_intToStr (nval + 1)⟩ htags
      rw [hstep]
      exact hload

/-- C8 witness: the round trip on a concrete fresh flag over an empty
filesystem. -/
theorem save_load_round_trip_amended_witness :
    ∃ g, flag.load (resolved_filename (str "/flags") sample_flag)
        (flag.save (str "/flags") 7 (str "h") (str "v") sample_flag (fun _ => none)).2.2
      = .ok g ∧ g.f_message = sample_flag.f_message := by
  obtain ⟨g, h0, h1, h2, h3, h4, h5, h6, h7, h8, h9⟩ :=
    save_load_round_trip_amended (str "/flags") 7 (str "h") (str "v") sample_flag
      (fun _ => none) (by decide) (by rfl)
      (by intro t ht; simp [sample_flag, flag.default_fields] at ht)
      (fun r0 cv h => Option.noConfusion h) (fun r0 d h => Option.noConfusion h)
  exact ⟨g, h0, h4⟩

theorem load_flags_loop_append (path : Str) (fs : Fs) :
    ∀ (pre : List Str) (rest : List Str) (acc : List flag),
      acc.length + pre.length ≤ FLAGS_LIMIT →
      (∀ p ∈ pre, ∃ g, flag.load p fs = Except.ok g) →
      load_flags_loop path fs (pre ++ rest) acc
        = load_flags_loop path fs rest (acc ++ pre.map (fun p => load_ok p fs)) := by
  intro pre
  induction pre with
  | nil => intro rest acc _ _; simp
  | cons p ps ih =>
    intro rest acc hlen hok
    obtain ⟨g, hg⟩ := hok p (by simp)
    have hnot : ¬ (FLAGS_LIMIT ≤ acc.length) := by
      simp only [List.length_cons] at hlen
      omega
    have hlo : load_ok p fs = g := by simp [load_ok, hg]
    show load_flags_loop path fs (p :: (ps ++ rest)) acc = _
    simp only [load_flags_loop, if_neg hnot, hg]
    rw [ih rest (acc ++ [g])
      (by simp only [List.length_append, List.length_cons, List.length_nil] at hlen ⊢; omega)
      (fun q hq => hok q (by simp [hq]))]
    simp [hlo]

theorem load_flags_loop_error (path : Str) (fs : Fs) (e : flag_error) :
    ∀ (pre rest : List Str) (bad : Str) (acc : List flag),
      acc.length + pre.length < FLAGS_LIMIT →
      (∀ p ∈ pre, ∃ g, flag.load p fs = Except.ok g) →
      flag.load bad fs = .error e →
      load_flags_loop path fs (pre ++ bad :: rest) acc = .error e := by
  intro pre rest bad acc hlen hok hbad
  rw [load_flags_loop_append path fs pre (bad :: rest) acc (by omega) hok]
  have hnot : ¬ (FLAGS_LIMIT ≤ (acc ++ pre.map (fun p => load_ok p fs)).length) := by
    simp only [List.length_append, List.length_map]
    omega
  simp only [load_flags_loop, if_neg hnot, hbad]

theorem load_flags_loop_sentinel (path : Str) (fs : Fs) (filename : Str)
    (rest : List Str) (acc : List flag) (hfull : FLAGS_LIMIT ≤ acc.length) :
    load_flags_loop path fs (filename :: rest) acc = .ok (acc ++ [sentinel_flag path]) := by
  simp only [load_flags_loop, if_pos hfull]
  rfl

/-!  ## C1: the overflow guard -/

/-- C1 amended: with the directory resolved, 100 parseable records followed
by at least one more file make load_flags() return the 100 loaded flags
followed by the synthesized too-many-flags sentinel as the 101st and last
entry - 101 entries in total, not 100; the files after the limit are not
read (the result does not depend on rest), and nothing is written: the
filesystem is returned unchanged, the sentinel is never passed to save().
The sentinel has identity communicatord / flag / too-many-flags, priority
97, tags flag and too-many, state UP. -/
theorem load_flags_overflow_amended (cache : Str) (pre rest : List Str) (fs : Fs)
    (hc : cache ≠ []) (hlen : pre.length = FLAGS_LIMIT) (hrest : rest ≠ [])
    (hok : ∀ p ∈ pre, ∃ g, flag.load p fs = Except.ok g) :
    ∃ l, load_flags cache (pre ++ rest) fs = (.ok (l ++ [sentinel_flag cache]), fs)
      ∧ l.length = FLAGS_LIMIT
      ∧ l = pre.map (fun p => load_ok p fs)
      ∧ (l ++ [sentinel_flag cache]).length = FLAGS_LIMIT + 1
      ∧ (sentinel_flag cache).f_unit = str "communicatord"
      ∧ (sentinel_flag cache).f_section = str "flag"
      ∧ (sentinel_flag cache).f_name = str "too-many-flags"
      ∧ (sentinel_flag cache).f_priority = 97
      ∧ (sentinel_flag cache).f_tags = [str "flag", str "too-many"]
      ∧ (sentinel_flag cache).f_state = .STATE_UP := by
  obtain ⟨r1, rs, hr⟩ := List.exists_cons_of_ne_nil hrest
  subst hr
  refine ⟨pre.map (fun p => load_ok p fs), ?_, by simp [hlen], rfl, by simp [hlen], rfl,
    rfl, rfl, rfl, rfl, rfl⟩
  unfold load_flags
  rw [if_neg hc]
  rw [load_flags_loop_append cache fs pre (r1 :: rs) [] (by simp [hlen]) hok]
  rw [load_flags_loop_sentinel cache fs r1 rs _ (by simp [hlen])]
  simp

theorem basic_record_load (p : Str) (fs2 : Fs) (hp : p ≠ [])
    (hfs : fs2 p = some basic_record) : ∃ g, flag.load p fs2 = Except.ok g := by
  unfold flag.load
  rw [if_neg hp, hfs]
  exact ⟨_, rfl⟩

/-- C1 counterexample: on a directory of 101 valid records, load_flags()
returns 101 entries (100 loaded plus the sentinel appended as the 101st),
not exactly 100 as claimed, and the sentinel is not persisted: after the
call there is still no record at the sentinel path. -/
theorem load_flags_overflow_counterexample :
    (∃ l, (load_flags (str "/flags") many_files many_fs).1 = .ok l ∧ l.length = 101)
    ∧ (load_flags (str "/flags") many_files many_fs).2
        (str "/flags/communicatord_flag_too-many-flags.flag") = none := by
  have hsplit : many_files
      = (List.range 100).map (fun i => 102 :: natToStr i) ++ [102 :: natToStr 100] := by
    unfold many_files
    rw [List.range_succ]
    simp
  have hok : ∀ p ∈ (List.range 100).map (fun i => 102 :: natToStr i),
      ∃ g, flag.load p many_fs = Except.ok g := by
    intro p hp
    obtain ⟨i, _, rfl⟩ := List.mem_map.mp hp
    exact basic_record_load _ many_fs (by simp) rfl
  have happ := load_flags_loop_append (str "/flags") many_fs
    ((List.range 100).map (fun i => 102 :: natToStr i)) [102 :: natToStr 100] []
    (by simp [FLAGS_LIMIT]) hok
  have hsent := load_flags_loop_sentinel (str "/flags") many_fs (102 :: natToStr 100) []
    ([] ++ ((List.range 100).map (fun i => 102 :: natToStr i)).map
      (fun p => load_ok p many_fs))
    (by simp [FLAGS_LIMIT])
  constructor
  · refine ⟨([] ++ ((List.range 100).map (fun i => 102 :: natToStr i)).map
      (fun p => load_ok p many_fs)) ++ [sentinel_flag (str "/flags")], ?_, ?_⟩
    · show (load_flags (str "/flags") many_files many_fs).1 = _
      unfold load_flags
      rw [if_neg (by decide)]
      rw [hsplit]
      dsimp only
      rw [happ, hsent]
    · simp
  · show many_fs (str "/flags/communicatord_flag_too-many-flags.flag") = none
    rfl

/-- C1 witness: the amended overflow theorem at the concrete 101-record
directory. -/
theorem load_flags_overflow_amended_witness :
    ∃ l, load_flags (str "/flags") many_files many_fs
      = (.ok (l ++ [sentinel_flag (str "/flags")]), many_fs) := by
  have hsplit : many_files
      = (List.range 100).map (fun i => 102 :: natToStr i) ++ [102 :: natToStr 100] := by
    unfold many_files
    rw [List.range_succ]
    simp
  obtain ⟨l, h1, _⟩ := load_flags_overflow_amended (str "/flags")
    ((List.range 100).map (fun i => 102 :: natToStr i)) [102 :: natToStr 100] many_fs
    (by decide) (by simp [FLAGS_LIMIT]) (by simp)
    (by
      intro p hp
      obtain ⟨i, _, rfl⟩ := List.mem_map.mp hp
      exact basic_record_load _ many_fs (by simp) rfl)
  exact ⟨l, by rw [hsplit, h1]⟩

/-!  ## C2: a parse failure aborts the whole bulk load -/

/-- C2 amended: a record that fails to parse does not get skipped: the
invalid_parameter exception from the file-loading constructor propagates
out of load_flags() (the loop has no handler), the whole bulk load aborts
with that error, no flags are returned, and the remaining records are not
loaded. -/
theorem load_flags_parse_failure_aborts (cache : Str) (pre rest : List Str) (bad : Str)
    (fs : Fs) (e : flag_error)
    (hc : cache ≠ []) (hlen : pre.length < FLAGS_LIMIT)
    (hok : ∀ p ∈ pre, ∃ g, flag.load p fs = Except.ok g)
    (hbad : flag.load bad fs = .error e) :
    load_flags cache (pre ++ bad :: rest) fs = (.error e, fs) := by
  unfold load_flags
  rw [if_neg hc]
  rw [load_flags_loop_error cache fs e pre rest bad [] (by simpa) hok hbad]

/-- C2 counterexample: with a first record missing its mandatory message
field and a second, perfectly loadable record behind it, load_flags()
returns the invalid_parameter error and no flag list at all - the good
record is not loaded, against the claim that a bad record is skipped and
the rest still returned. -/
theorem load_flags_parse_failure_counterexample :
    (load_flags (str "/flags") [str "bad.flag", str "good.flag"] two_file_fs).1
        = .error .invalid_parameter
    ∧ (∃ g, flag.load (str "good.flag") two_file_fs = Except.ok g) :=
  ⟨by rfl, ⟨_, by rfl⟩⟩

/-- C2 witness: the abort theorem at the concrete two-file directory. -/
theorem load_flags_parse_failure_aborts_witness :
    load_flags (str "/flags") [str "bad.flag", str "good.flag"] two_file_fs
      = (.error .invalid_parameter, two_file_fs) :=
  load_flags_parse_failure_aborts (str "/flags") [] [str "good.flag"] (str "bad.flag")
    two_file_fs .invalid_parameter (by decide) (by decide)
    (fun p hp => absurd hp (by simp)) (by rfl)

end communicatord
